import Mathlib

/-!
Shallow embedding of the contiguous-memory allocator in `src/mm/cma.c`
(registrar, allocation context, allocate/free engine) together with the
properties checked against it.  Machine integers (`unsigned long`) are
modelled as `Nat` with explicit reduction modulo `2 ^ 32` at the points
where the source relies on wrap-around.
-/

/-- PAGE_SHIFT from `asm/page.h` (not under src/): 4 KiB pages.  The value 12
is pinned by the source itself: `cm_alloc` passes `order + 12` as the byte
alignment order of a request whose alignment is `2^order` pages. -/
def PAGE_SHIFT : Nat := 12

/-- PAGE_SIZE in bytes. -/
def PAGE_SIZE : Nat := 2 ^ PAGE_SHIFT

/-- MAX_ORDER_NR_PAGES from `mmzone.h` (not under src/): `1 << (MAX_ORDER-1)`
with the default MAX_ORDER = 11 used by this platform. -/
def MAX_ORDER_NR_PAGES : Nat := 2 ^ 10

/-- The registrar's large-granule unit G in bytes:
`MAX_ORDER_NR_PAGES << PAGE_SHIFT`, as used by `cma_init_migratetype`. -/
def GRANULE : Nat := MAX_ORDER_NR_PAGES <<< PAGE_SHIFT

/-- `unsigned long` is 32 bits wide on this ARM platform. -/
def ULONG_MOD : Nat := 2 ^ 32

/-- The error values of `asm/errno.h` (not under src/) that `cma.c` returns
(negated in C); only their identity matters here. -/
inductive Errno where
  | EINVAL
  | ENOSPC
  | EOVERFLOW
  | ENOMEM
  | EBUSY
deriving DecidableEq

deriving instance DecidableEq for Except

/-! ### Region registrar (`cma_grabbed`, `__cma_queue_give_back`,
`cma_give_back_queued`, `cma_init_migratetype`) -/

/-- Capacity of the static `cma_grabbed[8]` array. -/
def CMA_GRABBED_CAP : Nat := 8

/-- Registrar state: `ready` is whether the function pointer `cma_give_back`
has been switched from `__cma_queue_give_back` to `__cma_give_back` by the
one-time init step; `queue` is the contents of `cma_grabbed`
(`cma_grabbed_count` entries); `marked` is the log of ranges on which the
marking effect `__cma_give_back` (freeing each pageblock of the range as CMA)
has been performed, in order. -/
structure RegState where
  ready : Bool
  queue : List (Nat × Nat)
  marked : List (Nat × Nat)
deriving DecidableEq

/-- `__cma_give_back(start, size)`: the marking effect.  Its body hands every
pageblock of the range to the page allocator; the embedding records the call
in the `marked` log.  Always returns 0. -/
def cmaGiveBackMark (s : RegState) (start size : Nat) : Except Errno Unit × RegState :=
  (.ok (), { s with marked := s.marked ++ [(start, size)] })

/-- `__cma_queue_give_back(start, size)`: records the range in `cma_grabbed`
unless the array is full, in which case it returns -ENOSPC. -/
def cmaQueueGiveBack (s : RegState) (start size : Nat) : Except Errno Unit × RegState :=
  if s.queue.length = CMA_GRABBED_CAP then (.error .ENOSPC, s)
  else (.ok (), { s with queue := s.queue ++ [(start, size)] })

/-- The function pointer `cma_give_back`, initially `__cma_queue_give_back`
and switched to `__cma_give_back` by `cma_give_back_queued`. -/
def cma_give_back (s : RegState) (start size : Nat) : Except Errno Unit × RegState :=
  if s.ready then cmaGiveBackMark s start size else cmaQueueGiveBack s start size

/-- `cma_give_back_queued()`: the one-time core_initcall.  Sets the pointer to
`__cma_give_back`, then replays every queued range through `__cma_give_back`
in queue order.  (The queue itself, `__initdata`, is not cleared.) -/
def cma_give_back_queued (s : RegState) : RegState :=
  s.queue.foldl (fun t r => (cmaGiveBackMark t r.1 r.2).2) { s with ready := true }

/-- `cma_init_migratetype(start, size)`: validates the arguments and then
calls through the `cma_give_back` pointer.  The overflow test
`start + size < start` is on 32-bit unsigned arithmetic. -/
def cma_init_migratetype (s : RegState) (start size : Nat) : Except Errno Unit × RegState :=
  if size = 0 then (.error .EINVAL, s)
  else if (start ||| size) &&& (GRANULE - 1) ≠ 0 then (.error .EINVAL, s)
  else if (start + size) % ULONG_MOD < start then (.error .EOVERFLOW, s)
  else cma_give_back s start size

/-- Registrar-level operations: a `register` is a `cma_init_migratetype`
call, `drain` is the one-time late-boot initcall. -/
inductive RegOp where
  | register (start size : Nat)
  | drain
deriving DecidableEq

/-- One registrar step. -/
def regStep (s : RegState) : RegOp → RegState
  | .register a n => (cma_init_migratetype s a n).2
  | .drain => cma_give_back_queued s

/-- A run of registrar operations. -/
def regRun (s : RegState) (ops : List RegOp) : RegState :=
  ops.foldl regStep s

/-! ### Range pool -/

/-- Modelled from the spec: the Range Pool implementation — `struct gen_pool`
with `gen_pool_create`, `gen_pool_add`, `gen_pool_alloc_aligned` and
`gen_pool_free` of `lib/genalloc.c` — is code of this repository that is not
under src/.  Following spec §4.3, a pool is the set of free page frames of
its region; `take` is a first-fit search over free extents honouring a
power-of-two alignment, which picks the least aligned address whose whole
range is free; `give_back` returns a previously taken range.  The pool is
kept in page-frame units: the source creates the pool with minimum
allocation order PAGE_SHIFT and `cm_alloc` requests `count << PAGE_SHIFT`
bytes at byte-alignment order `order + PAGE_SHIFT`, i.e. `count` frames
aligned to `2 ^ order` frames. -/
abbrev Pool := Finset Nat

/-- First-fit aligned search: the least `a` with `a % 2^order = 0` whose
whole range of `n` frames is free; `none` when no free extent satisfies size
and alignment (the source encodes this as a NULL address). -/
def genPoolTake (free : Pool) (n order : Nat) : Option Nat :=
  (List.range (free.sup id + 2)).find? fun a =>
    a % 2 ^ order == 0 && decide (Finset.Ico a (a + n) ⊆ free)

/-- `gen_pool_alloc_aligned`: on success the returned range is removed from
the pool. -/
def genPoolAllocAligned (free : Pool) (n order : Nat) : Option Nat × Pool :=
  match genPoolTake free n order with
  | none => (none, free)
  | some a => (some a, free \ Finset.Ico a (a + n))

/-- `gen_pool_free`: returns a range to the pool. -/
def genPoolGiveBack (free : Pool) (a n : Nat) : Pool :=
  free ∪ Finset.Ico a (a + n)

/-! ### Allocation context and allocate/free engine -/

/-- Modelled from the spec: the migratetype enum of `mmzone.h` is code of
this repository that is not under src/.  The spec's NONE allocation class
(spec §3: memory already generically reclaimable/movable, handed out with no
eviction step) must be the value on which `cm_alloc`'s test
`if (cma->migratetype)` is false, so MIGRATE_MOVABLE — the class
`__cma_check_range` assigns to ZONE_MOVABLE memory — is 0 here. -/
def MIGRATE_MOVABLE : Nat := 0

/-- Modelled from the spec: the FOREIGN-EVICT allocation class, assigned by
`__cma_check_range` to explicitly registered regions; any nonzero value. -/
def MIGRATE_CMA : Nat := 4

/-- Zone index of ZONE_MOVABLE in this kernel's zone enum (`mmzone.h`, not
under src/); only its distinctness from other zone indices matters. -/
def ZONE_MOVABLE : Nat := 2

/-- pageblock_nr_pages (`pageblock-flags.h`, not under src/):
`1 << pageblock_order` with pageblock_order = MAX_ORDER - 1 = 10 on this
configuration (no huge pages). -/
def pageblock_nr_pages : Nat := 2 ^ 10

/-- `struct cma`: the allocation-class tag (`migratetype`) and the range
pool. -/
structure Cma where
  migratetype : Nat
  pool : Pool
deriving DecidableEq

/-- Result and effect record of one `cm_alloc` call: `ret` is the page frame
of the returned first page (`none` for NULL), `cma` the context after the
call (`none` when called with a NULL context), `locked` whether `cma_mutex`
was taken, and `evictCall` the page-frame range `(pfn, count)` passed to the
external eviction primitive `alloc_contig_range` when it was invoked. -/
structure AllocOut where
  ret : Option Nat
  cma : Option Cma
  locked : Bool
  evictCall : Option (Nat × Nat)
deriving DecidableEq

/-- `cm_alloc(cma, count, order)`.  `evictOk` is the oracle for the external
`alloc_contig_range` primitive (true = returned 0).  `count` is a C int and
`size = count << PAGE_SHIFT` overflows `int` for counts of 2^19 and above —
undefined behaviour in the source — so the embedding does not truncate the
product; the `!size` test is then `count = 0`. -/
def cm_alloc (evictOk : Nat → Nat → Bool) (c : Option Cma) (count order : Nat) :
    AllocOut :=
  match c with
  | none => ⟨none, none, false, none⟩
  | some cma =>
    if count = 0 then ⟨none, some cma, false, none⟩
    else
      match genPoolAllocAligned cma.pool count order with
      | (none, _) => ⟨none, some cma, true, none⟩
      | (some start, taken) =>
        if cma.migratetype ≠ 0 then
          if evictOk start count then
            ⟨some start, some { cma with pool := taken }, true, some (start, count)⟩
          else
            ⟨none, some { cma with pool := genPoolGiveBack taken start count }, true,
              some (start, count)⟩
        else
          ⟨some start, some { cma with pool := taken }, true, none⟩

/-- Result and effect record of one `cm_free` call: the context after the
call, whether `cma_mutex` was taken, and the range passed to the external
`free_contig_pages` when it was invoked. -/
structure FreeOut where
  cma : Option Cma
  locked : Bool
  releaseCall : Option (Nat × Nat)
deriving DecidableEq

/-- `cm_free(cma, pages, count)`: a no-op on a NULL context or NULL pages;
otherwise gives the range back to the pool and, for a nonzero migratetype,
hands it back to general circulation. -/
def cm_free (c : Option Cma) (pages : Option Nat) (count : Nat) : FreeOut :=
  match c, pages with
  | none, _ => ⟨c, false, none⟩
  | some _, none => ⟨c, false, none⟩
  | some cma, some p =>
    ⟨some { cma with pool := genPoolGiveBack cma.pool p count }, true,
      if cma.migratetype ≠ 0 then some (p, count) else none⟩

/-! ### Context creation and destruction -/

/-- The memory-manager state `__cma_check_range` consults: page-frame
validity, the zone of each frame (used both for the ZONE_MOVABLE test and
the uniformity test), and the migratetype stored per pageblock, keyed by the
frame number of the block's first page. -/
structure MemEnv where
  pfn_valid : Nat → Bool
  zone : Nat → Nat
  pageblockMt : Nat → Nat

/-- ALIGN(x, a) for the power-of-two a it is used with. -/
def alignUp (x a : Nat) : Nat := (x + a - 1) / a * a

/-- The expected migratetype `__cma_check_range` computes from the zone of
the first frame: MIGRATE_CMA unless the range lies in ZONE_MOVABLE. -/
def cmaExpectedMt (env : MemEnv) (start : Nat) : Nat :=
  if env.zone (start >>> PAGE_SHIFT) ≠ ZONE_MOVABLE then MIGRATE_CMA else MIGRATE_MOVABLE

/-- `start & ~(pageblock_nr_pages - 1)`: frame number of the first page of
the pageblock containing the range's first frame. -/
def cmaBlockStart (start : Nat) : Nat :=
  (start >>> PAGE_SHIFT) - (start >>> PAGE_SHIFT) % pageblock_nr_pages

/-- The number of iterations of `__cma_check_range`'s pageblock walk.  The
source computes `count = (pfn - start) >> PAGE_SHIFT` — a page count shifted
by PAGE_SHIFT rather than by pageblock_order — and the walk is a do-while on
a 32-bit unsigned counter, so a zero count means `2 ^ 32` iterations. -/
def cmaBlockIters (start size : Nat) : Nat :=
  if (alignUp (start >>> PAGE_SHIFT + size >>> PAGE_SHIFT) pageblock_nr_pages
      - cmaBlockStart start) >>> PAGE_SHIFT = 0 then
    ULONG_MOD
  else
    (alignUp (start >>> PAGE_SHIFT + size >>> PAGE_SHIFT) pageblock_nr_pages
      - cmaBlockStart start) >>> PAGE_SHIFT

/-- `__cma_check_range(start, size)`: classify the range.  Checks the first
frame, then that every frame of the range is valid and lies in the zone of
the first, then walks pageblocks comparing each block's migratetype with the
expected class. -/
def cma_check_range (env : MemEnv) (start size : Nat) : Except Errno Nat :=
  if ¬ env.pfn_valid (start >>> PAGE_SHIFT) then .error .EINVAL
  else if ¬ (∀ i < size >>> PAGE_SHIFT, 1 ≤ i →
      env.pfn_valid (start >>> PAGE_SHIFT + i) = true ∧
      env.zone (start >>> PAGE_SHIFT + i) = env.zone (start >>> PAGE_SHIFT)) then
    .error .EINVAL
  else if ¬ (∀ j < cmaBlockIters start size,
      env.pageblockMt (cmaBlockStart start + j * pageblock_nr_pages)
        = cmaExpectedMt env start) then
    .error .EINVAL
  else .ok (cmaExpectedMt env start)

/-- Result and effect record of `cma_create`: the returned context or error,
whether `kmalloc` was attempted, and whether the bookkeeping object and the
gen_pool are still allocated when the call returns. -/
structure CreateOut where
  result : Except Errno Cma
  kmallocTried : Bool
  cmaLive : Bool
  poolLive : Bool

/-- `cma_create(start, size)`.  The success of the three external
allocations (`kmalloc`, `gen_pool_create`, `gen_pool_add`) is given by
oracles; the error paths `error1`/`error2` free what was built before
returning.  On success the pool is seeded with the whole range
[start, start+size) in page-frame units. -/
def cma_create (env : MemEnv) (kmallocOk poolCreateOk poolAddOk : Bool)
    (start size : Nat) : CreateOut :=
  if size = 0 then ⟨.error .EINVAL, false, false, false⟩
  else if (start ||| size) &&& (PAGE_SIZE - 1) ≠ 0 then ⟨.error .EINVAL, false, false, false⟩
  else if (start + size) % ULONG_MOD < start then ⟨.error .EOVERFLOW, false, false, false⟩
  else
    match cma_check_range env start size with
    | .error e => ⟨.error e, false, false, false⟩
    | .ok mt =>
      if ¬ kmallocOk then ⟨.error .ENOMEM, true, false, false⟩
      else if ¬ poolCreateOk then ⟨.error .ENOMEM, true, false, false⟩
      else if ¬ poolAddOk then ⟨.error .ENOMEM, true, false, false⟩
      else ⟨.ok ⟨mt, Finset.Ico (start >>> PAGE_SHIFT) ((start + size) >>> PAGE_SHIFT)⟩,
        true, true, true⟩

/-- Effect record of `cma_destroy`: the context structure after the call and
the liveness of the two objects `cma_create` allocated. -/
structure DestroyOut where
  cma : Cma
  cmaLive : Bool
  poolLive : Bool
deriving DecidableEq

/-- `cma_destroy(cma)`: its whole body is `gen_pool_destroy(cma->pool)`.
Given the liveness of the objects allocated by `cma_create`, it destroys the
pool and touches nothing else: the `struct cma` is not `kfree`d and none of
its fields is written. -/
def cma_destroy (c : Cma) (cmaLive poolLive : Bool) : DestroyOut :=
  ⟨c, cmaLive, false⟩

/-- A concrete memory-manager state: every frame valid, one non-movable
zone, every pageblock tagged MIGRATE_CMA. -/
def envCMA : MemEnv := ⟨fun _ => true, fun _ => 0, fun _ => MIGRATE_CMA⟩

/-- A concrete memory-manager state with an inconsistency: every frame
valid, one non-movable zone, every pageblock tagged MIGRATE_CMA except the
block starting at frame 5120, which is tagged MIGRATE_MOVABLE. -/
def envBug : MemEnv :=
  ⟨fun _ => true, fun _ => 0,
   fun pfn => if pfn = 5120 then MIGRATE_MOVABLE else MIGRATE_CMA⟩

/-! ### Allocate/free traces over one context -/

/-- The page-frame interval of an outstanding allocation `(start, count)`. -/
def interval (p : Nat × Nat) : Finset Nat := Finset.Ico p.1 (p.1 + p.2)

/-- Frames covered by a list of outstanding allocations. -/
def outSet : List (Nat × Nat) → Finset Nat
  | [] => ∅
  | p :: l => interval p ∪ outSet l

/-- Total page count of a list of outstanding allocations. -/
def outstandingPages (l : List (Nat × Nat)) : Nat := (l.map Prod.snd).sum

/-- One engine call against a context: an `alloc` with the eviction oracle
answering `evictOk`, or a `free` of a previously returned allocation. -/
inductive PoolOp where
  | alloc (count order : Nat) (evictOk : Bool)
  | free (a count : Nat)
deriving DecidableEq

/-- A context together with its currently outstanding allocations. -/
structure TraceState where
  cma : Cma
  out : List (Nat × Nat)
deriving DecidableEq

/-- One engine call: an `alloc` is `cm_alloc`, recording a successful return
among the outstanding allocations; a `free` of an outstanding allocation is
`cm_free` with the range and count the matching `cm_alloc` returned.  A free
that does not match an outstanding allocation is outside the pool's contract
(spec §4.3: undefined behaviour) and is not modelled. -/
def traceStep (s : TraceState) : PoolOp → TraceState
  | .alloc count order ok =>
    match (cm_alloc (fun _ _ => ok) (some s.cma) count order).ret,
        (cm_alloc (fun _ _ => ok) (some s.cma) count order).cma with
    | some a, some c => ⟨c, (a, count) :: s.out⟩
    | none, some c => ⟨c, s.out⟩
    | _, none => s
  | .free a count =>
    if (a, count) ∈ s.out then
      match (cm_free (some s.cma) (some a) count).cma with
      | some c => ⟨c, s.out.erase (a, count)⟩
      | none => s
    else s

/-- A fresh context of class `mt` over the page-frame region
[base, base + n), as seeded by `cma_create`. -/
def initTrace (mt base n : Nat) : TraceState := ⟨⟨mt, Finset.Ico base (base + n)⟩, []⟩

/-- A run of engine calls. -/
def traceRun (s : TraceState) (ops : List PoolOp) : TraceState := ops.foldl traceStep s

/-- Bookkeeping invariant of a context over the region [base, base+n): the
free set and the outstanding allocations partition the region, and the
outstanding allocations are pairwise disjoint. -/
def PoolInv (base n : Nat) (s : TraceState) : Prop :=
  s.cma.pool ∪ outSet s.out = Finset.Ico base (base + n) ∧
  Disjoint s.cma.pool (outSet s.out) ∧
  List.Pairwise (fun p q => Disjoint (interval p) (interval q)) s.out

/-! ### Bitwise alignment helpers -/

theorem nat_or_eq_zero_iff (a b : Nat) : a ||| b = 0 ↔ a = 0 ∧ b = 0 := by
  constructor
  · intro h
    constructor
    · refine Nat.eq_of_testBit_eq fun i => ?_
      have hb := congrArg (fun x => Nat.testBit x i) h
      simp only [Nat.testBit_or, Nat.zero_testBit, Bool.or_eq_false_iff] at hb
      simp [hb.1]
    · refine Nat.eq_of_testBit_eq fun i => ?_
      have hb := congrArg (fun x => Nat.testBit x i) h
      simp only [Nat.testBit_or, Nat.zero_testBit, Bool.or_eq_false_iff] at hb
      simp [hb.2]
  · rintro ⟨rfl, rfl⟩; rfl

theorem mask_or_eq_zero_iff (a b k : Nat) :
    (a ||| b) &&& (2 ^ k - 1) = 0 ↔ a % 2 ^ k = 0 ∧ b % 2 ^ k = 0 := by
  rw [Nat.and_comm, Nat.and_or_distrib_left, nat_or_eq_zero_iff,
    Nat.and_comm (2 ^ k - 1) a, Nat.and_comm (2 ^ k - 1) b,
    Nat.and_pow_two_sub_one_eq_mod, Nat.and_pow_two_sub_one_eq_mod]

theorem granule_eq_pow : GRANULE = 2 ^ 22 := by decide

/-- The wrap test of `cma_init_migratetype` detects exactly the sums that
overflow 32 bits, for machine-representable arguments. -/
theorem wrap_test_iff {start size : Nat} (hs : start < ULONG_MOD) (hz : size < ULONG_MOD) :
    (start + size) % ULONG_MOD < start ↔ ULONG_MOD ≤ start + size := by
  constructor
  · intro h
    by_contra hle
    push_neg at hle
    rw [Nat.mod_eq_of_lt hle] at h
    omega
  · intro h
    have h2 : start + size - ULONG_MOD < ULONG_MOD := by omega
    have : (start + size) % ULONG_MOD = start + size - ULONG_MOD := by
      conv_lhs => rw [show start + size = (start + size - ULONG_MOD) + 1 * ULONG_MOD by omega]
      rw [Nat.add_mul_mod_self_right, Nat.mod_eq_of_lt h2]
    rw [this]
    have hz0 : 0 < start := by
      by_contra h0
      push_neg at h0
      omega
    omega

/-! ### Registrar helper lemmas -/

theorem cma_init_einval (s : RegState) (start size : Nat)
    (h : size = 0 ∨ ¬ start % GRANULE = 0 ∨ ¬ size % GRANULE = 0) :
    cma_init_migratetype s start size = (.error .EINVAL, s) := by
  by_cases h0 : size = 0
  · simp [cma_init_migratetype, h0]
  · have hmask : (start ||| size) &&& (GRANULE - 1) ≠ 0 := by
      rw [granule_eq_pow] at *
      intro hc
      rcases mask_or_eq_zero_iff start size 22 |>.mp hc with ⟨ha, hb⟩
      rcases h with h | h | h
      · exact h0 h
      · exact h ha
      · exact h hb
    simp [cma_init_migratetype, h0, hmask]

theorem cma_init_eoverflow (s : RegState) (start size : Nat)
    (hs : start < ULONG_MOD) (hz : size < ULONG_MOD)
    (h0 : size ≠ 0) (ha : start % GRANULE = 0) (hb : size % GRANULE = 0)
    (hov : ULONG_MOD ≤ start + size) :
    cma_init_migratetype s start size = (.error .EOVERFLOW, s) := by
  have hmask : (start ||| size) &&& (GRANULE - 1) = 0 := by
    rw [granule_eq_pow] at *
    exact (mask_or_eq_zero_iff start size 22).mpr ⟨ha, hb⟩
  have hw : (start + size) % ULONG_MOD < start := (wrap_test_iff hs hz).mpr hov
  simp [cma_init_migratetype, h0, hmask, hw]

theorem cma_init_dispatch (s : RegState) (start size : Nat)
    (hs : start < ULONG_MOD) (hz : size < ULONG_MOD)
    (h0 : size ≠ 0) (ha : start % GRANULE = 0) (hb : size % GRANULE = 0)
    (hov : start + size < ULONG_MOD) :
    cma_init_migratetype s start size = cma_give_back s start size := by
  have hmask : (start ||| size) &&& (GRANULE - 1) = 0 := by
    rw [granule_eq_pow] at *
    exact (mask_or_eq_zero_iff start size 22).mpr ⟨ha, hb⟩
  have hw : ¬ (start + size) % ULONG_MOD < start := by
    intro hc
    exact absurd ((wrap_test_iff hs hz).mp hc) (by omega)
  simp [cma_init_migratetype, h0, hmask, hw]

theorem foldl_mark (q : List (Nat × Nat)) (t : RegState) :
    q.foldl (fun t r => (cmaGiveBackMark t r.1 r.2).2) t = { t with marked := t.marked ++ q } := by
  induction q generalizing t with
  | nil => simp
  | cons p q ih =>
    rw [List.foldl_cons, ih]
    simp [cmaGiveBackMark]

theorem cma_give_back_queued_eq (s : RegState) :
    cma_give_back_queued s = ⟨true, s.queue, s.marked ++ s.queue⟩ := by
  rw [cma_give_back_queued, foldl_mark]

theorem cma_init_ready_invariant (s : RegState) (a n : Nat) :
    (cma_init_migratetype s a n).2.ready = s.ready := by
  simp only [cma_init_migratetype, cma_give_back, cmaGiveBackMark, cmaQueueGiveBack]
  repeat' split
  all_goals rfl

theorem regStep_ready (s : RegState) (op : RegOp) (h : s.ready = true) :
    (regStep s op).ready = true := by
  cases op with
  | register a n => rw [regStep, cma_init_ready_invariant]; exact h
  | drain => rw [regStep, cma_give_back_queued_eq]

theorem cma_init_preready_frame (s : RegState) (start size : Nat)
    (h : s.ready = false) :
    (cma_init_migratetype s start size).2.marked = s.marked ∧
    (cma_init_migratetype s start size).2.ready = false := by
  refine ⟨?_, by rw [cma_init_ready_invariant]; exact h⟩
  simp only [cma_init_migratetype, cma_give_back, cmaGiveBackMark, cmaQueueGiveBack, h]
  repeat' split
  all_goals simp_all

/-! ### Claims C5, C6, C7 -/

/-- C5: The registrar's Pre-Ready to Ready transition is one-shot and
irreversible.  While Pre-Ready, every accepted `register_region`
(`cma_init_migratetype`) only enqueues the request and performs no marking;
the one-time init step (`cma_give_back_queued`) switches to Ready and replays
every queued registration through the marking effect in queue order; once
Ready, every registration that reaches the effect is marked immediately and
never queued; and Ready is never left again under any sequence of
operations. -/
theorem cma_registrar_transition_once :
    (∀ s start size, s.ready = false →
        (cma_init_migratetype s start size).2.marked = s.marked ∧
        (cma_init_migratetype s start size).2.ready = false ∧
        ((cma_init_migratetype s start size).1 = .ok () →
          (cma_init_migratetype s start size).2.queue = s.queue ++ [(start, size)])) ∧
    (∀ s, cma_give_back_queued s = ⟨true, s.queue, s.marked ++ s.queue⟩) ∧
    (∀ s start size, s.ready = true →
        start < ULONG_MOD → size < ULONG_MOD → size ≠ 0 →
        start % GRANULE = 0 → size % GRANULE = 0 → start + size < ULONG_MOD →
        cma_init_migratetype s start size
          = (.ok (), ⟨true, s.queue, s.marked ++ [(start, size)]⟩)) ∧
    (∀ s ops, s.ready = true → (regRun s ops).ready = true) := by
  refine ⟨?_, cma_give_back_queued_eq, ?_, ?_⟩
  · intro s start size h
    refine ⟨(cma_init_preready_frame s start size h).1,
      (cma_init_preready_frame s start size h).2, ?_⟩
    simp only [cma_init_migratetype, cma_give_back, cmaGiveBackMark, cmaQueueGiveBack, h]
    repeat' split
    all_goals simp_all
  · intro s start size h hs hz h0 ha hb hov
    obtain ⟨r, q, m⟩ := s
    simp only [RegState.ready] at h
    subst h
    rw [cma_init_dispatch _ start size hs hz h0 ha hb hov]
    rfl
  · intro s ops
    induction ops generalizing s with
    | nil => intro h; simpa [regRun] using h
    | cons op ops ih =>
      intro h
      have : regRun s (op :: ops) = regRun (regStep s op) ops := by
        simp [regRun]
      rw [this]
      exact ih _ (regStep_ready s op h)

/-- Witness for C5 at concrete states. -/
theorem cma_registrar_transition_once_w :
    (cma_init_migratetype ⟨false, [], []⟩ GRANULE GRANULE).2.marked = [] ∧
    cma_give_back_queued ⟨false, [(GRANULE, GRANULE)], []⟩
      = ⟨true, [(GRANULE, GRANULE)], [(GRANULE, GRANULE)]⟩ ∧
    cma_init_migratetype ⟨true, [], []⟩ GRANULE GRANULE
      = (.ok (), ⟨true, [], [(GRANULE, GRANULE)]⟩) ∧
    (regRun ⟨true, [], []⟩ [.register GRANULE GRANULE]).ready = true := by
  have h := cma_registrar_transition_once
  exact ⟨(h.1 ⟨false, [], []⟩ GRANULE GRANULE rfl).1,
    h.2.1 ⟨false, [(GRANULE, GRANULE)], []⟩,
    h.2.2.1 ⟨true, [], []⟩ GRANULE GRANULE rfl (by decide) (by decide) (by decide)
      (by decide) (by decide) (by decide),
    h.2.2.2 ⟨true, [], []⟩ [.register GRANULE GRANULE] rfl⟩

/-- C6: `cma_init_migratetype` validates synchronously: zero size or a start
or size not aligned to the granule G yields -EINVAL with the state unchanged,
a 32-bit wrap of start+size yields -EOVERFLOW with the state unchanged, and
only inputs passing all three checks reach the marking/queueing dispatch. -/
theorem cma_init_migratetype_validates (s : RegState) (start size : Nat)
    (hs : start < ULONG_MOD) (hz : size < ULONG_MOD) :
    ((size = 0 ∨ start % GRANULE ≠ 0 ∨ size % GRANULE ≠ 0) →
      cma_init_migratetype s start size = (.error .EINVAL, s)) ∧
    (size ≠ 0 → start % GRANULE = 0 → size % GRANULE = 0 → ULONG_MOD ≤ start + size →
      cma_init_migratetype s start size = (.error .EOVERFLOW, s)) ∧
    (size ≠ 0 → start % GRANULE = 0 → size % GRANULE = 0 → start + size < ULONG_MOD →
      cma_init_migratetype s start size = cma_give_back s start size) :=
  ⟨fun h => cma_init_einval s start size h,
   fun h0 ha hb hov => cma_init_eoverflow s start size hs hz h0 ha hb hov,
   fun h0 ha hb hov => cma_init_dispatch s start size hs hz h0 ha hb hov⟩

/-- Witness for C6 at concrete inputs. -/
theorem cma_init_migratetype_validates_w :
    cma_init_migratetype ⟨false, [], []⟩ 4096 4096 = (.error .EINVAL, ⟨false, [], []⟩) ∧
    cma_init_migratetype ⟨false, [], []⟩ (ULONG_MOD - GRANULE) GRANULE
      = (.error .EOVERFLOW, ⟨false, [], []⟩) ∧
    cma_init_migratetype ⟨false, [], []⟩ GRANULE GRANULE
      = cma_give_back ⟨false, [], []⟩ GRANULE GRANULE :=
  ⟨(cma_init_migratetype_validates ⟨false, [], []⟩ 4096 4096 (by decide) (by decide)).1
      (Or.inr (Or.inl (by decide))),
   (cma_init_migratetype_validates ⟨false, [], []⟩ (ULONG_MOD - GRANULE) GRANULE
      (by decide) (by decide)).2.1 (by decide) (by decide) (by decide) (by decide),
   (cma_init_migratetype_validates ⟨false, [], []⟩ GRANULE GRANULE
      (by decide) (by decide)).2.2 (by decide) (by decide) (by decide) (by decide)⟩

/-- C7: the pending-registration queue has fixed capacity 8; a valid
registration arriving while Pre-Ready with 8 entries queued fails with
-ENOSPC and leaves the state (in particular the queue) unchanged. -/
theorem cma_queue_capacity_enospc (s : RegState) (start size : Nat)
    (hready : s.ready = false) (hfull : s.queue.length = CMA_GRABBED_CAP)
    (hs : start < ULONG_MOD) (hz : size < ULONG_MOD)
    (h0 : size ≠ 0) (ha : start % GRANULE = 0) (hb : size % GRANULE = 0)
    (hov : start + size < ULONG_MOD) :
    CMA_GRABBED_CAP = 8 ∧
    cma_init_migratetype s start size = (.error .ENOSPC, s) := by
  refine ⟨rfl, ?_⟩
  rw [cma_init_dispatch s start size hs hz h0 ha hb hov]
  simp [cma_give_back, hready, cmaQueueGiveBack, hfull]

/-- Witness for C7 at a concrete full queue. -/
theorem cma_queue_capacity_enospc_w :
    CMA_GRABBED_CAP = 8 ∧
    cma_init_migratetype ⟨false, List.replicate 8 (0, GRANULE), []⟩ GRANULE GRANULE
      = (.error .ENOSPC, ⟨false, List.replicate 8 (0, GRANULE), []⟩) :=
  cma_queue_capacity_enospc ⟨false, List.replicate 8 (0, GRANULE), []⟩ GRANULE GRANULE
    rfl rfl (by decide) (by decide) (by decide) (by decide) (by decide) (by decide)

/-! ### Pool and engine helper lemmas -/

theorem genPoolTake_spec {free : Pool} {n order a : Nat}
    (h : genPoolTake free n order = some a) :
    a % 2 ^ order = 0 ∧ Finset.Ico a (a + n) ⊆ free := by
  have hp := List.find?_some h
  simp only [Bool.and_eq_true, beq_iff_eq, decide_eq_true_eq] at hp
  exact hp

theorem genPoolGiveBack_restore {free : Pool} {a n : Nat}
    (h : Finset.Ico a (a + n) ⊆ free) :
    genPoolGiveBack (free \ Finset.Ico a (a + n)) a n = free := by
  rw [genPoolGiveBack, Finset.sdiff_union_of_subset h]

/-- A successful classification returns the expected migratetype of the
range's first frame. -/
theorem cma_check_range_ok_mt {env : MemEnv} {start size mt : Nat}
    (h : cma_check_range env start size = .ok mt) :
    mt = cmaExpectedMt env start := by
  rw [cma_check_range] at h
  split at h
  · cases h
  · split at h
    · cases h
    · split at h
      · cases h
      · exact (Except.ok.inj h).symm

/-- Exhaustive case analysis of one `cm_alloc` call on a non-NULL
context. -/
theorem cm_alloc_cases (evictOk : Nat → Nat → Bool) (c : Cma) (count order : Nat) :
    (count = 0 ∧ cm_alloc evictOk (some c) count order = ⟨none, some c, false, none⟩) ∨
    (count ≠ 0 ∧ genPoolTake c.pool count order = none ∧
      cm_alloc evictOk (some c) count order = ⟨none, some c, true, none⟩) ∨
    (∃ a, count ≠ 0 ∧ genPoolTake c.pool count order = some a ∧
      Finset.Ico a (a + count) ⊆ c.pool ∧ a % 2 ^ order = 0 ∧
      ((c.migratetype ≠ 0 ∧ evictOk a count = false ∧
          cm_alloc evictOk (some c) count order = ⟨none, some c, true, some (a, count)⟩) ∨
        ((c.migratetype = 0 ∨ evictOk a count = true) ∧
          cm_alloc evictOk (some c) count order =
            ⟨some a, some { c with pool := c.pool \ Finset.Ico a (a + count) }, true,
              if c.migratetype ≠ 0 then some (a, count) else none⟩))) := by
  by_cases h0 : count = 0
  · exact Or.inl ⟨h0, by simp [cm_alloc, h0]⟩
  · refine Or.inr ?_
    cases htake : genPoolTake c.pool count order with
    | none =>
      exact Or.inl ⟨h0, rfl, by simp [cm_alloc, h0, genPoolAllocAligned, htake]⟩
    | some a =>
      refine Or.inr ?_
      obtain ⟨halign, hsub⟩ := genPoolTake_spec htake
      refine ⟨a, h0, rfl, hsub, halign, ?_⟩
      by_cases hmt : c.migratetype = 0
      · refine Or.inr ⟨Or.inl hmt, ?_⟩
        simp [cm_alloc, h0, genPoolAllocAligned, htake, hmt]
      · by_cases hev : evictOk a count
        · refine Or.inr ⟨Or.inr hev, ?_⟩
          simp [cm_alloc, h0, genPoolAllocAligned, htake, hmt, hev]
        · refine Or.inl ⟨hmt, by simpa using hev, ?_⟩
          have hres : genPoolGiveBack (c.pool \ Finset.Ico a (a + count)) a count = c.pool :=
            genPoolGiveBack_restore hsub
          simp [cm_alloc, h0, genPoolAllocAligned, htake, hmt, hev, hres]

/-! ### Claims C1, C2, C3, C9, C10 -/

/-- C1: every failing `cm_alloc` returns NULL and leaves the context's pool
exactly as it was, whatever the failure mode; in particular, when the active
eviction step fails, the claimed range has been given back to the pool
before returning. -/
theorem cm_alloc_failure_restores_pool :
    (∀ evictOk c count order, (cm_alloc evictOk c count order).ret = none →
        (cm_alloc evictOk c count order).cma = c) ∧
    (∀ evictOk (c : Cma) count order a, count ≠ 0 →
        genPoolTake c.pool count order = some a →
        c.migratetype ≠ 0 → evictOk a count = false →
        cm_alloc evictOk (some c) count order = ⟨none, some c, true, some (a, count)⟩) := by
  constructor
  · intro evictOk c count order h
    cases c with
    | none => rfl
    | some cma =>
      rcases cm_alloc_cases evictOk cma count order with ⟨_, he⟩ | ⟨_, _, he⟩ |
        ⟨a, _, _, _, _, hc⟩
      · rw [he]
      · rw [he]
      · rcases hc with ⟨_, _, he⟩ | ⟨_, he⟩
        · rw [he]
        · rw [he] at h
          cases h
  · intro evictOk c count order a h0 htake hmt hev
    rcases cm_alloc_cases evictOk c count order with ⟨hz, _⟩ | ⟨_, hn, _⟩ |
      ⟨b, _, hb, _, _, hc⟩
    · exact absurd hz h0
    · rw [htake] at hn
      cases hn
    · have hba : b = a := by
        rw [htake] at hb
        exact Option.some.inj hb.symm
      subst hba
      rcases hc with ⟨_, _, he⟩ | ⟨hor, he⟩
      · exact he
      · rcases hor with hmt0 | hev1
        · exact absurd hmt0 hmt
        · rw [hev] at hev1
          cases hev1

/-- Witness for C1: a concrete exhausted-pool failure and a concrete
eviction failure. -/
theorem cm_alloc_failure_restores_pool_w :
    (cm_alloc (fun _ _ => true) (some ⟨0, ∅⟩) 1 0).cma = some ⟨0, (∅ : Finset Nat)⟩ ∧
    cm_alloc (fun _ _ => false) (some ⟨MIGRATE_CMA, Finset.Ico 0 4⟩) 2 0
      = ⟨none, some ⟨MIGRATE_CMA, Finset.Ico 0 4⟩, true, some (0, 2)⟩ := by
  have h := cm_alloc_failure_restores_pool
  exact ⟨h.1 (fun _ _ => true) (some ⟨0, ∅⟩) 1 0 (by decide),
    h.2 (fun _ _ => false) ⟨MIGRATE_CMA, Finset.Ico 0 4⟩ 2 0 0 (by decide) (by decide)
      (by decide) rfl⟩

/-- C2: every successful `cm_alloc(ctx, count, order)` with count > 0
returns a range whose start frame is aligned to `2^order` frames (hence the
physical byte address to `2^(order+PAGE_SHIFT)` bytes) and which consists of
exactly `count` frames taken from the context's pool. -/
theorem cm_alloc_success_aligned (evictOk : Nat → Nat → Bool) (c : Cma)
    (count order a : Nat) (hc : 0 < count)
    (h : (cm_alloc evictOk (some c) count order).ret = some a) :
    a % 2 ^ order = 0 ∧
    (a <<< PAGE_SHIFT) % 2 ^ (order + PAGE_SHIFT) = 0 ∧
    Finset.Ico a (a + count) ⊆ c.pool ∧
    (Finset.Ico a (a + count)).card = count ∧
    (cm_alloc evictOk (some c) count order).cma
      = some { c with pool := c.pool \ Finset.Ico a (a + count) } := by
  rcases cm_alloc_cases evictOk c count order with ⟨hz, _⟩ | ⟨_, _, he⟩ |
    ⟨b, _, htake, hsub, halign, hc2⟩
  · omega
  · rw [he] at h
    cases h
  · rcases hc2 with ⟨_, _, he⟩ | ⟨_, he⟩
    · rw [he] at h
      cases h
    · rw [he] at h
      have hba : b = a := Option.some.inj h
      subst hba
      refine ⟨halign, ?_, hsub, ?_, by rw [he]⟩
      · have hdvd : 2 ^ order ∣ b := Nat.dvd_of_mod_eq_zero halign
        obtain ⟨m, rfl⟩ := hdvd
        have hmul : 2 ^ order * m * 2 ^ PAGE_SHIFT = 2 ^ (order + PAGE_SHIFT) * m := by
          rw [pow_add]
          ring
        rw [Nat.shiftLeft_eq, hmul, Nat.mul_mod_right]
      · simp [Nat.card_Ico]

/-- Witness for C2 at a concrete successful allocation. -/
theorem cm_alloc_success_aligned_w :
    0 % 2 ^ 1 = 0 ∧
    (0 <<< PAGE_SHIFT) % 2 ^ (1 + PAGE_SHIFT) = 0 ∧
    Finset.Ico 0 (0 + 2) ⊆ (Finset.Ico 0 4 : Finset Nat) ∧
    (Finset.Ico (0 : Nat) (0 + 2)).card = 2 ∧
    (cm_alloc (fun _ _ => true) (some ⟨0, Finset.Ico 0 4⟩) 2 1).cma
      = some ⟨0, Finset.Ico 0 4 \ Finset.Ico 0 (0 + 2)⟩ :=
  cm_alloc_success_aligned (fun _ _ => true) ⟨0, Finset.Ico 0 4⟩ 2 1 0
    (by decide) (by decide)

/-- C3: `cm_alloc` invokes the eviction primitive `alloc_contig_range`
exactly when the context's class is nonzero (FOREIGN-EVICT) and a range was
actually claimed from the pool; a NONE-class context hands a successful
claim out directly with no eviction call; and `__cma_check_range` assigns
the MIGRATE_MOVABLE class exactly to ZONE_MOVABLE memory. -/
theorem cm_alloc_evict_iff_foreign :
    (∀ evictOk (c : Cma) count order,
        ((cm_alloc evictOk (some c) count order).evictCall.isSome = true ↔
          c.migratetype ≠ 0 ∧ count ≠ 0 ∧ (genPoolTake c.pool count order).isSome = true)) ∧
    (∀ evictOk (c : Cma) count order a, c.migratetype = 0 → count ≠ 0 →
        genPoolTake c.pool count order = some a →
        cm_alloc evictOk (some c) count order
          = ⟨some a, some { c with pool := c.pool \ Finset.Ico a (a + count) }, true, none⟩) ∧
    (∀ env start size mt, cma_check_range env start size = .ok mt →
        (mt = MIGRATE_MOVABLE ↔ env.zone (start >>> PAGE_SHIFT) = ZONE_MOVABLE)) := by
  refine ⟨?_, ?_, ?_⟩
  · intro evictOk c count order
    rcases cm_alloc_cases evictOk c count order with ⟨hz, he⟩ | ⟨h0, hn, he⟩ |
      ⟨a, h0, htake, _, _, hc⟩
    · rw [he]
      simp [hz]
    · rw [he]
      simp [hn]
    · rcases hc with ⟨hmt, _, he⟩ | ⟨_, he⟩
      · rw [he]
        simp [hmt, h0, htake]
      · rw [he]
        by_cases hmt : c.migratetype = 0
        · simp [hmt]
        · simp [hmt, h0, htake]
  · intro evictOk c count order a hmt0 h0 htake
    rcases cm_alloc_cases evictOk c count order with ⟨hz, _⟩ | ⟨_, hn, _⟩ |
      ⟨b, _, hb, _, _, hc⟩
    · exact absurd hz h0
    · rw [htake] at hn
      cases hn
    · have hba : b = a := by
        rw [htake] at hb
        exact Option.some.inj hb.symm
      subst hba
      rcases hc with ⟨hmt, _, _⟩ | ⟨_, he⟩
      · exact absurd hmt0 hmt
      · rw [he]
        simp [hmt0]
  · intro env start size mt h
    have hmt := cma_check_range_ok_mt h
    rw [cmaExpectedMt] at hmt
    by_cases hz : env.zone (start >>> PAGE_SHIFT) = ZONE_MOVABLE
    · rw [if_neg (fun hcon => hcon hz)] at hmt
      subst hmt
      exact ⟨fun _ => hz, fun _ => rfl⟩
    · rw [if_pos hz] at hmt
      subst hmt
      constructor
      · intro hc
        exact absurd hc (by decide)
      · intro hc
        exact absurd hc hz

/-- Witness for C3: a NONE-class direct handout and the classification of a
non-movable-zone range. -/
theorem cm_alloc_evict_iff_foreign_w :
    ((cm_alloc (fun _ _ => true) (some ⟨MIGRATE_CMA, Finset.Ico 0 4⟩) 2 0).evictCall.isSome
        = true ↔
      MIGRATE_CMA ≠ 0 ∧ (2 : Nat) ≠ 0 ∧
        (genPoolTake (Finset.Ico 0 4) 2 0).isSome = true) ∧
    cm_alloc (fun _ _ => true) (some ⟨0, Finset.Ico 0 4⟩) 2 0
      = ⟨some 0, some ⟨0, Finset.Ico 0 4 \ Finset.Ico 0 (0 + 2)⟩, true, none⟩ ∧
    (MIGRATE_CMA = MIGRATE_MOVABLE ↔ envCMA.zone (16777216 >>> PAGE_SHIFT) = ZONE_MOVABLE) := by
  have h := cm_alloc_evict_iff_foreign
  refine ⟨h.1 (fun _ _ => true) ⟨MIGRATE_CMA, Finset.Ico 0 4⟩ 2 0, ?_, ?_⟩
  · exact h.2.1 (fun _ _ => true) ⟨0, Finset.Ico 0 4⟩ 2 0 0 rfl (by decide) (by decide)
  · refine h.2.2 envCMA 16777216 16777216 MIGRATE_CMA ?_
    rw [cma_check_range, if_neg (fun hc => hc rfl),
      if_neg (fun hc => hc fun i _ _ => ⟨rfl, rfl⟩),
      if_neg (fun hc => hc fun j _ => rfl)]
    rfl

/-- C9: `cm_alloc` with count = 0 returns NULL before taking the mutex,
without touching the pool and without invoking eviction. -/
theorem cm_alloc_zero_count_noop (evictOk : Nat → Nat → Bool) (c : Cma) (order : Nat) :
    cm_alloc evictOk (some c) 0 order = ⟨none, some c, false, none⟩ := by
  simp [cm_alloc]

/-- C10: `cma_destroy` destroys only the pool: the bookkeeping object
allocated by `cma_create` is not released and the context's
allocation-class field is unchanged. -/
theorem cma_destroy_frame (c : Cma) (cmaLive poolLive : Bool) :
    cma_destroy c cmaLive poolLive = ⟨c, cmaLive, false⟩ ∧
    (cma_destroy c cmaLive poolLive).cma.migratetype = c.migratetype ∧
    (cma_destroy c cmaLive poolLive).cmaLive = cmaLive :=
  ⟨rfl, rfl, rfl⟩

/-! ### Claim C8 -/

/-- C8 (checked at the failing input): `__cma_check_range`'s pageblock walk
computes its iteration count as `(pfn - start) >> PAGE_SHIFT` — a page count
shifted by PAGE_SHIFT instead of pageblock_order — so over the 16 MiB range
starting at frame 4096 it visits a single pageblock out of four, and the
inconsistent tag of the block at frame 5120 goes undetected: `cma_create`
succeeds and allocates its bookkeeping where the claim requires it to fail
and allocate nothing. -/
theorem cma_create_misses_inconsistent_tag :
    cma_create envBug true true true 16777216 16777216
      = ⟨.ok ⟨MIGRATE_CMA, Finset.Ico 4096 8192⟩, true, true, true⟩ ∧
    cmaBlockStart 16777216 = 4096 ∧
    cmaBlockIters 16777216 16777216 = 1 ∧
    4096 ≤ 5120 ∧ (5120 : Nat) < 8192 ∧ 5120 % pageblock_nr_pages = 0 ∧
    (envBug.pageblockMt 5120 == cmaExpectedMt envBug 16777216) = false := by
  have hck : cma_check_range envBug 16777216 16777216 = .ok MIGRATE_CMA := by
    rw [cma_check_range, if_neg (fun hc => hc rfl),
      if_neg (fun hc => hc fun i _ _ => ⟨rfl, rfl⟩), if_neg ?hblk]
    · rfl
    case hblk =>
      intro hc
      apply hc
      intro j hj
      have h1 : cmaBlockIters 16777216 16777216 = 1 := by decide
      rw [h1] at hj
      have hj0 : j = 0 := by omega
      subst hj0
      rfl
  refine ⟨?_, by decide, by decide, by decide, by decide, by decide, by decide⟩
  rw [cma_create, if_neg (by decide), if_neg (by decide), if_neg (by decide), hck]
  rfl

/-! ### Trace invariant lemmas for C4 -/

theorem interval_card (p : Nat × Nat) : (interval p).card = p.2 := by
  simp [interval]

theorem mem_outSet_subset {p : Nat × Nat} {l : List (Nat × Nat)} (h : p ∈ l) :
    interval p ⊆ outSet l := by
  induction l with
  | nil => cases h
  | cons q t ih =>
    rcases List.mem_cons.mp h with rfl | h2
    · exact Finset.subset_union_left
    · exact (ih h2).trans Finset.subset_union_right

theorem disjoint_outSet_of_forall {x : Finset Nat} {l : List (Nat × Nat)}
    (h : ∀ q ∈ l, Disjoint x (interval q)) : Disjoint x (outSet l) := by
  induction l with
  | nil => simp [outSet]
  | cons q t ih =>
    rw [outSet]
    exact Finset.disjoint_union_right.mpr
      ⟨h q (List.mem_cons_self q t), ih fun r hr => h r (List.mem_cons_of_mem _ hr)⟩

theorem outSet_erase {p : Nat × Nat} {l : List (Nat × Nat)} (h : p ∈ l) :
    outSet l = interval p ∪ outSet (l.erase p) := by
  induction l with
  | nil => cases h
  | cons q t ih =>
    by_cases hqp : q = p
    · subst hqp
      rw [List.erase_cons_head, outSet]
    · have h2 : p ∈ t := by
        rcases List.mem_cons.mp h with h1 | h1
        · exact absurd h1.symm hqp
        · exact h1
      rw [List.erase_cons_tail (by simpa using hqp), outSet, outSet, ih h2,
        Finset.union_left_comm]

theorem disjoint_interval_erase {p : Nat × Nat} {l : List (Nat × Nat)}
    (hpw : List.Pairwise (fun p q => Disjoint (interval p) (interval q)) l) (h : p ∈ l) :
    Disjoint (interval p) (outSet (l.erase p)) := by
  induction l with
  | nil => cases h
  | cons q t ih =>
    rcases List.pairwise_cons.mp hpw with ⟨hq, ht⟩
    by_cases hqp : q = p
    · subst hqp
      rw [List.erase_cons_head]
      exact disjoint_outSet_of_forall hq
    · have h2 : p ∈ t := by
        rcases List.mem_cons.mp h with h1 | h1
        · exact absurd h1.symm hqp
        · exact h1
      rw [List.erase_cons_tail (by simpa using hqp), outSet]
      exact Finset.disjoint_union_right.mpr ⟨(hq p h2).symm, ih ht h2⟩

theorem outSet_card {l : List (Nat × Nat)}
    (hpw : List.Pairwise (fun p q => Disjoint (interval p) (interval q)) l) :
    (outSet l).card = outstandingPages l := by
  induction l with
  | nil => simp [outSet, outstandingPages]
  | cons p t ih =>
    rcases List.pairwise_cons.mp hpw with ⟨hp, ht⟩
    rw [outSet, Finset.card_union_of_disjoint (disjoint_outSet_of_forall hp),
      interval_card, ih ht]
    simp [outstandingPages]

theorem traceStep_inv {base n : Nat} {s : TraceState} (hInv : PoolInv base n s)
    (op : PoolOp) : PoolInv base n (traceStep s op) := by
  obtain ⟨hUnion, hDisj, hPw⟩ := hInv
  cases op with
  | alloc count order ok =>
    rcases cm_alloc_cases (fun _ _ => ok) s.cma count order with ⟨_, he⟩ | ⟨_, _, he⟩ |
      ⟨a, h0, htake, hsub, halign, hc⟩
    · simp only [traceStep, he]
      exact ⟨hUnion, hDisj, hPw⟩
    · simp only [traceStep, he]
      exact ⟨hUnion, hDisj, hPw⟩
    · rcases hc with ⟨_, _, he⟩ | ⟨_, he⟩
      · simp only [traceStep, he]
        exact ⟨hUnion, hDisj, hPw⟩
      · simp only [traceStep, he]
        refine ⟨?_, ?_, ?_⟩
        · rw [outSet, ← Finset.union_assoc]
          show s.cma.pool \ Finset.Ico a (a + count) ∪ interval (a, count) ∪ outSet s.out
            = Finset.Ico base (base + n)
          rw [show interval (a, count) = Finset.Ico a (a + count) from rfl,
            Finset.sdiff_union_of_subset hsub, hUnion]
        · rw [outSet]
          refine Finset.disjoint_union_right.mpr ⟨?_, ?_⟩
          · exact Finset.sdiff_disjoint
          · exact hDisj.mono_left (Finset.sdiff_subset)
        · refine List.pairwise_cons.mpr ⟨?_, hPw⟩
          intro q hq
          exact ((hDisj.mono_left hsub).mono_right (mem_outSet_subset hq))
  | free a count =>
    by_cases hmem : (a, count) ∈ s.out
    · have hfree : (cm_free (some s.cma) (some a) count).cma
          = some { s.cma with pool := genPoolGiveBack s.cma.pool a count } := rfl
      simp only [traceStep, hmem, if_true, hfree]
      have hIsub : interval (a, count) ⊆ outSet s.out := mem_outSet_subset hmem
      have hErase : outSet s.out = interval (a, count) ∪ outSet (s.out.erase (a, count)) :=
        outSet_erase hmem
      have hEsub : outSet (s.out.erase (a, count)) ⊆ outSet s.out := by
        rw [hErase]
        exact Finset.subset_union_right
      refine ⟨?_, ?_, ?_⟩
      · show genPoolGiveBack s.cma.pool a count ∪ outSet (s.out.erase (a, count))
          = Finset.Ico base (base + n)
        rw [genPoolGiveBack,
          show Finset.Ico a (a + count) = interval (a, count) from rfl,
          Finset.union_assoc, ← hErase, hUnion]
      · show Disjoint (genPoolGiveBack s.cma.pool a count) (outSet (s.out.erase (a, count)))
        rw [genPoolGiveBack]
        refine Finset.disjoint_union_left.mpr ⟨hDisj.mono_right hEsub, ?_⟩
        exact disjoint_interval_erase hPw hmem
      · exact List.Pairwise.sublist (List.erase_sublist _ _) hPw
    · simp only [traceStep, hmem, if_false]
      exact ⟨hUnion, hDisj, hPw⟩

theorem traceRun_inv {base n : Nat} {s : TraceState} (hInv : PoolInv base n s)
    (ops : List PoolOp) : PoolInv base n (traceRun s ops) := by
  induction ops generalizing s with
  | nil => exact hInv
  | cons op ops ih =>
    have : traceRun s (op :: ops) = traceRun (traceStep s op) ops := by
      simp [traceRun]
    rw [this]
    exact ih (traceStep_inv hInv op)

theorem poolInv_init (mt base n : Nat) : PoolInv base n (initTrace mt base n) := by
  refine ⟨?_, ?_, ?_⟩
  · simp [initTrace, outSet]
  · simp [initTrace, outSet]
  · simp [initTrace]

/-! ### Claim C4 -/

/-- C4: after any sequence of allocate/free engine calls on a context
created over the page-frame region [base, base + n), the free space in its
pool plus the pages of the currently outstanding allocations equals the
region size n, and the outstanding allocations are pairwise disjoint. -/
theorem cm_trace_conservation (mt base n : Nat) (ops : List PoolOp) :
    (traceRun (initTrace mt base n) ops).cma.pool.card
      + outstandingPages (traceRun (initTrace mt base n) ops).out = n ∧
    List.Pairwise (fun p q => Disjoint (interval p) (interval q))
      (traceRun (initTrace mt base n) ops).out := by
  obtain ⟨hU, hD, hP⟩ := traceRun_inv (poolInv_init mt base n) ops
  refine ⟨?_, hP⟩
  have hcard := congrArg Finset.card hU
  rw [Finset.card_union_of_disjoint hD, outSet_card hP, Nat.card_Ico] at hcard
  omega
